import Mathlib

/-!
Verification development for the Sharp.AI style-advisor application.

The embedding below translates, from `src/types.ts`, `src/services/geminiService.ts`
and `src/components/StylePlayground.tsx`:
  * the data model (`StyleRecommendation`, `StyleCombination`, `AnalysisResult`,
    `AnalysisMode`);
  * the data-URL header stripping `base64Image.split(',')[1] || base64Image`
    (JavaScript `split` on a comma, index 1, with `||` falling back to the whole
    string when the element is missing or the empty string);
  * the request objects built by `analyzeFace` and `generateLookPreview`
    (model name, inline-data part with its MIME type, text part, system
    instruction);
  * the response handling of both functions, including JavaScript truthiness
    (`undefined`/empty string are falsy, arrays are truthy even when empty) and
    the `TypeError` thrown by a property access on `undefined`;
  * the synchronous part of `handleVisualize` in the playground component.

External platform primitives (the network call, `JSON.parse`) are modelled as
explicit parameters or outcome values; everything the repository itself
computes is embedded as executable Lean functions.
-/

/-- From `src/types.ts`: one suggested hairstyle or facial-hair style. -/
structure StyleRecommendation where
  name : String
  description : String
  reasoning : String
deriving DecidableEq

/-- From `src/types.ts`: a paired look. -/
structure StyleCombination where
  name : String
  description : String
  hairstyle : String
  facialHair : String
  reasoning : String
deriving DecidableEq

/-- From `src/types.ts`: the structured analysis result. -/
structure AnalysisResult where
  faceShape : String
  faceAnalysis : String
  hairstyles : List StyleRecommendation
  facialHair : List StyleRecommendation
  combinations : List StyleCombination
  groomingTips : List String
deriving DecidableEq

/-- From `src/types.ts`: the analysis mode enumeration. -/
inductive AnalysisMode where
  | COMPLETE
  | HAIRSTYLE_ONLY
  | FACIAL_HAIR_ONLY
deriving DecidableEq

/-- JavaScript `String.prototype.split` with separator `","`, on a list of
characters.  `split` never returns an empty array: on the empty string it
returns `[""]`, and each comma starts a new group. -/
def splitComma : List Char → List (List Char)
  | [] => [[]]
  | c :: rest =>
    if c = ',' then [] :: splitComma rest
    else (c :: (splitComma rest).headD []) :: (splitComma rest).tail

/-- The header-stripping expression `base64Image.split(',')[1] || base64Image`
from `geminiService.ts` lines 81 and 130, on character lists: element 1 of the
split when it exists and is non-empty (JavaScript `||` treats the empty string
as falsy), otherwise the whole input. -/
def stripHeaderList (l : List Char) : List Char :=
  match (splitComma l).get? 1 with
  | some t => if t = [] then l else t
  | none => l

/-- `stripHeaderList` lifted to `String`: the `cleanBase64` value computed by
both `analyzeFace` and `generateLookPreview`. -/
def stripHeader (s : String) : String :=
  ⟨stripHeaderList s.data⟩

/-- Unfolding equation for `splitComma` on a cons cell. -/
theorem splitComma_cons (c : Char) (rest : List Char) :
    splitComma (c :: rest) =
      if c = ',' then [] :: splitComma rest
      else (c :: (splitComma rest).headD []) :: (splitComma rest).tail := by
  simp only [splitComma]

/-- `splitComma` never returns the empty list. -/
theorem splitComma_ne_nil (l : List Char) : splitComma l ≠ [] := by
  cases l with
  | nil => simp [splitComma]
  | cons c rest =>
    rw [splitComma_cons]
    by_cases hc : c = ','
    · simp [hc]
    · simp [hc]

/-- Splitting a comma-free list yields a single group. -/
theorem splitComma_no_comma (l : List Char) (h : ',' ∉ l) : splitComma l = [l] := by
  induction l with
  | nil => rfl
  | cons c rest ih =>
    have hc : c ≠ ',' := fun he => h (he ▸ List.mem_cons_self c rest)
    have hrest : ',' ∉ rest := fun hm => h (List.mem_cons_of_mem c hm)
    rw [splitComma_cons, if_neg hc, ih hrest]
    rfl

/-- Splitting at the first comma: a comma-free prefix becomes the first group. -/
theorem splitComma_append (a b : List Char) (h : ',' ∉ a) :
    splitComma (a ++ ',' :: b) = a :: splitComma b := by
  induction a with
  | nil =>
    simp only [List.nil_append]
    rw [splitComma_cons, if_pos rfl]
  | cons c rest ih =>
    have hc : c ≠ ',' := fun he => h (he ▸ List.mem_cons_self c rest)
    have hrest : ',' ∉ rest := fun hm => h (List.mem_cons_of_mem c hm)
    simp only [List.cons_append]
    rw [splitComma_cons, if_neg hc, ih hrest]
    rfl

/-- Every group produced by `splitComma` is comma-free. -/
theorem splitComma_mem_no_comma (l t : List Char) (ht : t ∈ splitComma l) :
    ',' ∉ t := by
  induction l generalizing t with
  | nil =>
    simp only [splitComma, List.mem_singleton] at ht
    subst ht; simp
  | cons c rest ih =>
    by_cases hc : c = ','
    · rw [splitComma_cons, if_pos hc] at ht
      rcases List.mem_cons.mp ht with h1 | h2
      · subst h1; simp
      · exact ih t h2
    · cases h : splitComma rest with
      | nil => exact absurd h (splitComma_ne_nil rest)
      | cons g gs =>
        rw [splitComma_cons, if_neg hc, h] at ht
        rcases List.mem_cons.mp ht with h1 | h2
        · subst h1
          intro hmem
          rcases List.mem_cons.mp hmem with h3 | h4
          · exact hc h3.symm
          · exact ih g (h ▸ List.mem_cons_self g gs) h4
        · exact ih t (h ▸ List.mem_cons_of_mem g h2)

/-- `stripHeaderList` of a comma-free list is the identity. -/
theorem stripHeaderList_no_comma (l : List Char) (h : ',' ∉ l) :
    stripHeaderList l = l := by
  unfold stripHeaderList
  rw [splitComma_no_comma l h]
  rfl

/-- `stripHeaderList` is idempotent as a function. -/
theorem stripHeaderList_idem (l : List Char) :
    stripHeaderList (stripHeaderList l) = stripHeaderList l := by
  cases hg : (splitComma l).get? 1 with
  | none =>
    have h1 : stripHeaderList l = l := by unfold stripHeaderList; rw [hg]
    simp only [h1]
  | some t =>
    by_cases ht : t = []
    · have h1 : stripHeaderList l = l := by
        unfold stripHeaderList; rw [hg]; simp [ht]
      simp only [h1]
    · have h1 : stripHeaderList l = t := by
        unfold stripHeaderList; rw [hg]; simp [ht]
      have hmem : t ∈ splitComma l := List.get?_mem hg
      rw [h1]
      exact stripHeaderList_no_comma t (splitComma_mem_no_comma l t hmem)

/-- From `geminiService.ts` line 4: the fixed expert-persona preamble (a template
literal beginning and ending with a newline). -/
def BASE_SYSTEM_INSTRUCTION : String :=
  "\nYou are an expert professional stylist and barber with deep knowledge of face shapes, aesthetics, and grooming.\nYour task is to analyze a user\x27s facial image and provide personalized recommendations.\n1. Identify the user\x27s face shape (e.g., Oval, Round, Square, Diamond, Heart, Oblong).\n2. Analyze key facial features (jawline, forehead, cheekbones).\n3. Recommend styles based on the specific request mode.\n4. Provide 3-4 general grooming or styling tips.\n\nBe specific about WHY a style works (e.g., \"Adds volume to top to elongate a round face\").\n"

/-- From `geminiService.ts` lines 83-90: the mode-specific directive.  The
source initialises `modeInstruction` to `""` and assigns through an
`if`/`else if`/`else` chain whose `else` branch is reached exactly for
`COMPLETE`, the only remaining enumeration value. -/
def modeInstruction : AnalysisMode → String
  | .HAIRSTYLE_ONLY =>
    "FOCUS ONLY ON HAIRSTYLES. Return an empty array for \x27facialHair\x27. Populate \x27hairstyles\x27 with 4-5 options. Populate \x27combinations\x27 with 3 distinct hairstyle-only transformations (leave facialHair as empty string in combinations)."
  | .FACIAL_HAIR_ONLY =>
    "FOCUS ONLY ON FACIAL HAIR. Return an empty array for \x27hairstyles\x27. Populate \x27facialHair\x27 with 4-5 options. Populate \x27combinations\x27 with 3 distinct facial-hair-only transformations (leave hairstyle as empty string in combinations)."
  | .COMPLETE =>
    "Recommend 3-4 specific hairstyles, 3-4 specific facial hair styles, and 3 distinct \x27Look Combinations\x27 pairing them together."

/-- From `geminiService.ts` line 92: the system instruction actually sent. -/
def fullSystemInstruction (mode : AnalysisMode) : String :=
  BASE_SYSTEM_INSTRUCTION ++ "\n\nCURRENT MODE: " ++ modeInstruction mode

/-- An `inlineData` request/response payload: MIME type plus base64 data. -/
structure InlineData where
  mimeType : String
  data : String
deriving DecidableEq

/-- One element of a request's `parts` array. -/
inductive RequestPart where
  | inline (d : InlineData)
  | textPart (t : String)
deriving DecidableEq

/-- The request object passed to `ai.models.generateContent`, restricted to the
fields this repository sets. -/
structure GenRequest where
  model : String
  parts : List RequestPart
  systemInstruction : Option String
deriving DecidableEq

/-- The request built by `analyzeFace` (`geminiService.ts` lines 94-114). -/
def analyzeFaceRequest (base64Image : String) (mode : AnalysisMode) : GenRequest :=
  { model := "gemini-2.5-flash"
  , parts :=
      [ .inline ⟨"image/jpeg", stripHeader base64Image⟩
      , .textPart "Analyze this face and recommend styles based on the mode provided in system instructions." ]
  , systemInstruction := some (fullSystemInstruction mode) }

/-- The edit-instruction text of `generateLookPreview` (`geminiService.ts`
lines 144-146), a template literal with embedded newlines, indentation and
trailing spaces. -/
def previewEditText (combinationDescription : String) : String :=
  "Edit this image to show the person with the following style: " ++ combinationDescription ++ ". \n            Maintain the person\x27s original identity, face shape, skin tone, and lighting. \n            Make it look like a photorealistic after-haircut photo."

/-- The request built by `generateLookPreview` (`geminiService.ts` lines
133-150). -/
def generateLookPreviewRequest (originalBase64 : String)
    (combinationDescription : String) : GenRequest :=
  { model := "gemini-2.5-flash-image"
  , parts :=
      [ .inline ⟨"image/jpeg", stripHeader originalBase64⟩
      , .textPart (previewEditText combinationDescription) ]
  , systemInstruction := none }

/-- The first inline-data part of a request: what is transmitted as the image. -/
def transmittedInline (req : GenRequest) : Option InlineData :=
  req.parts.findSome? (fun p =>
    match p with
    | .inline d => some d
    | .textPart _ => none)

/-- The MIME type transmitted with the image. -/
def transmittedMime (req : GenRequest) : Option String :=
  (transmittedInline req).map InlineData.mimeType

/-- The base64 payload transmitted as the image. -/
def transmittedData (req : GenRequest) : Option String :=
  (transmittedInline req).map InlineData.data

/-- A JavaScript error value as it propagates through the `try`/`catch`
blocks: an `Error` constructed with a message, a `TypeError` raised by a
property access on `undefined`, a `SyntaxError` from `JSON.parse`, or a
transport/provider failure delivered by the SDK. -/
inductive JsError where
  | message (s : String)
  | typeError (s : String)
  | parseFailure (s : String)
  | network (s : String)
deriving DecidableEq

/-- The outcome of the awaited `ai.models.generateContent` call: either a
response value or a thrown transport/provider error. -/
inductive ProviderOutcome (α : Type) where
  | success (value : α)
  | failure (e : JsError)
deriving DecidableEq

/-- The response consumed by `analyzeFace`: only its `text` field is read;
`undefined` is modelled as `none`. -/
structure AnalyzeResponse where
  text : Option String
deriving DecidableEq

/-- `analyzeFace`'s handling of the provider outcome (`geminiService.ts`
lines 116-124).  `JSON.parse` is an external platform primitive and is passed
in as `parse`; a parse failure is a thrown `SyntaxError`, which the `catch`
block logs and rethrows unchanged, as it does any transport error.
JavaScript `if (response.text)` treats both `undefined` and the empty string
as falsy. -/
def analyzeFaceRun (parse : String → Except String AnalysisResult)
    (outcome : ProviderOutcome AnalyzeResponse) : Except JsError AnalysisResult :=
  match outcome with
  | .failure e => .error e
  | .success resp =>
    match resp.text with
    | some t =>
      if t = "" then .error (.message "No response text received from Gemini.")
      else
        match parse t with
        | .ok r => .ok r
        | .error m => .error (.parseFailure m)
    | none => .error (.message "No response text received from Gemini.")

/-- A content part of the image-generation response. -/
structure ResPart where
  inlineData : Option InlineData
  text : Option String
deriving DecidableEq

/-- A candidate's content; the `parts` field may be absent. -/
structure Content where
  parts : Option (List ResPart)
deriving DecidableEq

/-- One response candidate; its `content` field may be absent. -/
structure Candidate where
  content : Option Content
deriving DecidableEq

/-- The image-generation response; the `candidates` field may be absent. -/
structure GenResponse where
  candidates : Option (List Candidate)
deriving DecidableEq

/-- JavaScript truthiness of `part.inlineData && part.inlineData.data`:
the part carries inline image bytes when `inlineData` is present and its
`data` string is non-empty. -/
def partHasImage (p : ResPart) : Bool :=
  match p.inlineData with
  | some d => !d.data.isEmpty
  | none => false

/-- The `for`-loop of `generateLookPreview` (`geminiService.ts` lines
154-158): the data of the first part whose `inlineData.data` is truthy. -/
def findInlinePart : List ResPart → Option String
  | [] => none
  | p :: ps =>
    match p.inlineData with
    | some d => if d.data.isEmpty then findInlinePart ps else some d.data
    | none => findInlinePart ps

/-- Extraction of the preview image from the response (`geminiService.ts`
lines 152-161), with JavaScript semantics of
`if (response.candidates && response.candidates[0].content.parts)`:
a missing `candidates` field is falsy, so the guard fails and the
`"No image generated."` error is thrown; an array — even an empty one — is
truthy, so `candidates[0]` is read, and when it or its `content` is
`undefined` the property access throws a `TypeError`; a missing `parts`
field makes the guard falsy again. -/
def extractPreview (r : GenResponse) : Except JsError String :=
  match r.candidates with
  | none => .error (.message "No image generated.")
  | some [] =>
    .error (.typeError "Cannot read properties of undefined (reading \x27content\x27)")
  | some (c :: _) =>
    match c.content with
    | none =>
      .error (.typeError "Cannot read properties of undefined (reading \x27parts\x27)")
    | some ct =>
      match ct.parts with
      | none => .error (.message "No image generated.")
      | some ps =>
        match findInlinePart ps with
        | some dta => .ok ("data:image/png;base64," ++ dta)
        | none => .error (.message "No image generated.")

/-- `generateLookPreview`'s handling of the provider outcome: a transport
error is caught, logged and rethrown unchanged; otherwise the response is
scanned by `extractPreview` (whose thrown errors are likewise rethrown
unchanged by the same `catch` block). -/
def generateLookPreviewRun (outcome : ProviderOutcome GenResponse) :
    Except JsError String :=
  match outcome with
  | .failure e => .error e
  | .success r => extractPreview r

/-- Whether any candidate of the response carries a content part with inline
image bytes. -/
def hasImagePart (r : GenResponse) : Bool :=
  match r.candidates with
  | none => false
  | some cs =>
    cs.any (fun c =>
      match c.content with
      | none => false
      | some ct =>
        match ct.parts with
        | none => false
        | some ps => ps.any partHasImage)

/-- Whether the property accesses of the extraction guard stay on defined
values: `candidates` absent (guard short-circuits), or a first candidate
exists and has a `content` object. -/
def contentAccessOk (r : GenResponse) : Bool :=
  match r.candidates with
  | none => true
  | some [] => false
  | some (c :: _) => c.content.isSome

/-- Specification-side description of "the base64 data of the first part
carrying inline image bytes, in part order". -/
def specFirstImageData (ps : List ResPart) : Option String :=
  match (ps.filter partHasImage).head? with
  | some p =>
    match p.inlineData with
    | some d => some d.data
    | none => none
  | none => none

/-- From `StylePlayground.tsx` line 27: which catalog is displayed. -/
inductive ViewMode where
  | recommended
  | explore
deriving DecidableEq

/-- The component-local state of `StylePlayground` (lines 27-35), with
`string | null` fields as `Option String`. -/
structure PlaygroundState where
  viewMode : ViewMode
  selectedHair : Option String
  selectedBeard : Option String
  isGenerating : Bool
  generatedImage : Option String
  error : Option String
  sliderPosition : Nat
  containerWidth : Nat
deriving DecidableEq

/-- JavaScript truthiness of a `string | null` value: `null` and the empty
string are falsy. -/
def jsTruthyStr : Option String → Bool
  | some s => !s.isEmpty
  | none => false

/-- The `hairPart` expression of `handleVisualize`
(`StylePlayground.tsx` line 69). -/
def hairPart (st : PlaygroundState) : String :=
  if jsTruthyStr st.selectedHair then "Hairstyle: " ++ st.selectedHair.getD ""
  else ""

/-- The `beardPart` expression of `handleVisualize`
(`StylePlayground.tsx` line 70). -/
def beardPart (st : PlaygroundState) : String :=
  if jsTruthyStr st.selectedBeard then "Facial Hair: " ++ st.selectedBeard.getD ""
  else ""

/-- The synchronous prefix of `handleVisualize` (`StylePlayground.tsx` lines
67-78), up to the point where the preview request is issued: when both parts
are empty it returns without touching the state or issuing a request;
otherwise it sets the generating flag, clears the error and issues a request
carrying the assembled description. -/
def handleVisualizeStart (st : PlaygroundState) :
    PlaygroundState × Option String :=
  if hairPart st = "" ∧ beardPart st = "" then (st, none)
  else
    ({ st with isGenerating := true, error := none },
     some (hairPart st ++ ". " ++ beardPart st ++ ". Create a cohesive look."))

/-- The `disabled` condition of the visualize button
(`StylePlayground.tsx` line 239): `isGenerating || (!selectedHair && !selectedBeard)`. -/
def visualizeDisabled (st : PlaygroundState) : Bool :=
  st.isGenerating || (!jsTruthyStr st.selectedHair && !jsTruthyStr st.selectedBeard)

/-- Whether `p` is a prefix of `l`, by character comparison. -/
def hasPrefixL : List Char → List Char → Bool
  | [], _ => true
  | _ :: _, [] => false
  | p :: ps, c :: cs => p == c && hasPrefixL ps cs

/-- Whether the pattern `pat` occurs as a contiguous run inside `l`. -/
def containsL (pat : List Char) : List Char → Bool
  | [] => pat.isEmpty
  | c :: cs => hasPrefixL pat (c :: cs) || containsL pat cs

/-- Whether the string `s` contains `frag` as a substring. -/
def containsFrag (s frag : String) : Bool :=
  containsL frag.data s.data

/-- A character of the base64 alphabet (including padding). -/
def isBase64Char (c : Char) : Bool :=
  c.isAlphanum || c = '+' || c = '/' || c = '='

/-- Syntactic validity of a base64 PNG data URI: the fixed prefix followed by
base64-alphabet characters. -/
def isValidPngDataUri (s : String) : Bool :=
  hasPrefixL "data:image/png;base64,".data s.data && (s.data.drop 22).all isBase64Char

/-- `hasPrefixL` characterised by list append. -/
theorem hasPrefixL_iff (p l : List Char) :
    hasPrefixL p l = true ↔ ∃ t, l = p ++ t := by
  induction p generalizing l with
  | nil =>
    simp [hasPrefixL]
  | cons x xs ih =>
    cases l with
    | nil =>
      simp [hasPrefixL]
    | cons c cs =>
      simp only [hasPrefixL, Bool.and_eq_true, beq_iff_eq, ih,
        List.cons_append, List.cons.injEq]
      constructor
      · rintro ⟨h1, t, h2⟩
        exact ⟨t, h1.symm, h2⟩
      · rintro ⟨t, h1, h2⟩
        exact ⟨h1.symm, t, h2⟩

/-- `containsL` characterised by list append: an occurrence is a split of the
list around the pattern. -/
theorem containsL_iff (pat l : List Char) :
    containsL pat l = true ↔ ∃ a b, l = a ++ pat ++ b := by
  induction l with
  | nil =>
    simp only [containsL, List.isEmpty_iff]
    constructor
    · intro h
      exact ⟨[], [], by simp [h]⟩
    · rintro ⟨a, b, h⟩
      rcases List.append_eq_nil.mp (List.append_eq_nil.mp h.symm).1 with ⟨-, h2⟩
      exact h2
  | cons c cs ih =>
    simp only [containsL, Bool.or_eq_true, ih, hasPrefixL_iff]
    constructor
    · rintro (⟨t, ht⟩ | ⟨a, b, hab⟩)
      · exact ⟨[], t, by simp [ht]⟩
      · exact ⟨c :: a, b, by simp [hab]⟩
    · rintro ⟨a, b, hab⟩
      cases a with
      | nil =>
        exact Or.inl ⟨b, by simpa using hab⟩
      | cons a0 as =>
        rcases List.cons.injEq .. ▸ hab with h
        simp only [List.cons_append, List.cons.injEq] at h
        exact Or.inr ⟨as, b, h.2⟩

/-- `stripHeaderList` when split element 1 exists and is non-empty. -/
theorem stripHeaderList_eq_of_get (l t : List Char)
    (h : (splitComma l).get? 1 = some t) (ht : t ≠ []) : stripHeaderList l = t := by
  have he : stripHeaderList l =
      match (splitComma l).get? 1 with
      | some u => if u = [] then l else u
      | none => l := rfl
  rw [he, h]
  exact if_neg ht

/-- `stripHeaderList` when split element 1 exists but is empty: the whole
input is used (JavaScript `||` sees the empty string as falsy). -/
theorem stripHeaderList_self_of_get_nil (l : List Char)
    (h : (splitComma l).get? 1 = some []) : stripHeaderList l = l := by
  have he : stripHeaderList l =
      match (splitComma l).get? 1 with
      | some u => if u = [] then l else u
      | none => l := rfl
  rw [he, h]
  exact if_pos rfl

/-- C9: for every input image string and every analysis mode, the MIME type
transmitted with the image by `analyzeFace`, and by `generateLookPreview` for
every description, is the constant `"image/jpeg"`, regardless of the actual
encoding of the uploaded image. -/
theorem mimeType_always_jpeg (img desc : String) (mode : AnalysisMode) :
    transmittedMime (analyzeFaceRequest img mode) = some "image/jpeg" ∧
    transmittedMime (generateLookPreviewRequest img desc) = some "image/jpeg" :=
  ⟨rfl, rfl⟩

/-- C10, counterexample: on the input `"a,,b"`, which contains two commas, the
transmitted payload is the full string `"a,,b"`, not the (empty) substring
strictly between the first and second comma. -/
theorem stripHeader_two_commas_cex :
    transmittedData (analyzeFaceRequest "a,,b" .COMPLETE) = some "a,,b" ∧
    stripHeader "a,,b" = "a,,b" ∧ ("a,,b" : String) ≠ "" := by
  refine ⟨rfl, rfl, by decide⟩

/-- C10 (amended): for an input with two or more commas — written
`x ++ ',' :: (y ++ ',' :: z)` with `x`, `y` comma-free, so `y` is the segment
strictly between the first and second comma — the transmitted payload is `y`
whenever `y` is non-empty (everything after the second comma is discarded),
but when `y` is empty the whole input is transmitted; and for a comma-free
header immediately followed by a comma and an empty payload the whole string
is transmitted. -/
theorem stripHeader_two_commas_amended (x y z : List Char)
    (hx : ',' ∉ x) (hy : ',' ∉ y) :
    (y ≠ [] → stripHeaderList (x ++ ',' :: (y ++ ',' :: z)) = y) ∧
    (y = [] → stripHeaderList (x ++ ',' :: (y ++ ',' :: z)) =
      x ++ ',' :: (y ++ ',' :: z)) ∧
    stripHeaderList (x ++ [',']) = x ++ [','] := by
  have hsp : splitComma (x ++ ',' :: (y ++ ',' :: z)) = x :: y :: splitComma z := by
    rw [splitComma_append x (y ++ ',' :: z) hx, splitComma_append y z hy]
  have hg : (splitComma (x ++ ',' :: (y ++ ',' :: z))).get? 1 = some y := by
    rw [hsp]; rfl
  refine ⟨fun hy' => stripHeaderList_eq_of_get _ y hg hy', fun hy' => ?_, ?_⟩
  · subst hy'
    exact stripHeaderList_self_of_get_nil _ hg
  · have hx1 : x ++ [','] = x ++ ',' :: ([] : List Char) := rfl
    have hsp2 : splitComma (x ++ [',']) = [x, []] := by
      rw [hx1, splitComma_append x [] hx]
      rfl
    have hg2 : (splitComma (x ++ [','])).get? 1 = some [] := by rw [hsp2]; rfl
    exact stripHeaderList_self_of_get_nil _ hg2

/-- Witness for the amended C10 at a concrete data URL with a junk second
segment. -/
theorem stripHeader_two_commas_witness :
    stripHeaderList ("data:image/jpeg;base64".data ++ ',' :: ("QUJD".data ++ ',' :: "junk".data)) = "QUJD".data :=
  (stripHeader_two_commas_amended "data:image/jpeg;base64".data "QUJD".data "junk".data
    (by decide) (by decide)).1 (by decide)

/-- C2, counterexample: for the empty base64 payload, prefixing the data-URL
header `"data:image/jpeg;base64,"` changes the transmitted bytes — the falsy
empty split element makes the code fall back to the whole string, so the
entire header is transmitted instead of the empty payload. -/
theorem stripHeader_empty_payload_cex :
    transmittedData (analyzeFaceRequest "data:image/jpeg;base64," .COMPLETE) ≠
      transmittedData (analyzeFaceRequest "" .COMPLETE) ∧
    stripHeader "data:image/jpeg;base64," = "data:image/jpeg;base64," := by
  refine ⟨by decide, rfl⟩

/-- C2 (amended): the strip operation is idempotent as a function — applying
it to an already-stripped string changes nothing — and for every NON-EMPTY
comma-free base64 payload, the bytes transmitted with and without a
`data:...;base64,` header (comma-free up to its trailing comma) are
identical. -/
theorem stripHeader_idempotent_amended :
    (∀ s : String, stripHeader (stripHeader s) = stripHeader s) ∧
    (∀ header payload : String, ',' ∉ header.data → ',' ∉ payload.data →
      payload ≠ "" →
      stripHeader (header ++ "," ++ payload) = payload ∧
      stripHeader payload = payload) := by
  constructor
  · intro s
    exact congrArg String.mk (stripHeaderList_idem s.data)
  · intro header payload hh hp hne
    have hpd : payload.data ≠ [] := by
      intro hcon
      exact hne (String.ext hcon)
    have hdata : (header ++ "," ++ payload).data =
        header.data ++ ',' :: payload.data := by
      rw [String.data_append, String.data_append, List.append_assoc]
      rfl
    constructor
    · apply String.ext
      show stripHeaderList (header ++ "," ++ payload).data = payload.data
      rw [hdata]
      have hsp : splitComma (header.data ++ ',' :: payload.data) =
          header.data :: splitComma payload.data :=
        splitComma_append header.data payload.data hh
      have hg : (splitComma (header.data ++ ',' :: payload.data)).get? 1 =
          some payload.data := by
        rw [hsp, splitComma_no_comma payload.data hp]
        rfl
      exact stripHeaderList_eq_of_get _ _ hg hpd
    · apply String.ext
      show stripHeaderList payload.data = payload.data
      exact stripHeaderList_no_comma payload.data hp

/-- Witness for the amended C2 at a concrete non-empty payload. -/
theorem stripHeader_idempotent_witness :
    stripHeader ("data:image/png;base64" ++ "," ++ "QUJD") = "QUJD" ∧
    stripHeader "QUJD" = "QUJD" :=
  stripHeader_idempotent_amended.2 "data:image/png;base64" "QUJD"
    (by decide) (by decide) (by decide)

set_option maxRecDepth 8000 in
/-- C5: the system instruction built by `analyzeFace` is mode-correct.  For
HAIRSTYLE_ONLY it directs the provider to return an empty `facialHair` array,
populate `hairstyles` with 4-5 options and leave `facialHair` as an empty
string in combinations; for FACIAL_HAIR_ONLY symmetrically with the axes
swapped; for COMPLETE it requests 3-4 hairstyles, 3-4 facial hair styles and
3 combinations pairing them together. -/
theorem systemInstruction_mode_correct :
    (containsFrag (fullSystemInstruction .HAIRSTYLE_ONLY)
        "Return an empty array for \x27facialHair\x27" = true ∧
      containsFrag (fullSystemInstruction .HAIRSTYLE_ONLY)
        "Populate \x27hairstyles\x27 with 4-5 options" = true ∧
      containsFrag (fullSystemInstruction .HAIRSTYLE_ONLY)
        "(leave facialHair as empty string in combinations)" = true) ∧
    (containsFrag (fullSystemInstruction .FACIAL_HAIR_ONLY)
        "Return an empty array for \x27hairstyles\x27" = true ∧
      containsFrag (fullSystemInstruction .FACIAL_HAIR_ONLY)
        "Populate \x27facialHair\x27 with 4-5 options" = true ∧
      containsFrag (fullSystemInstruction .FACIAL_HAIR_ONLY)
        "(leave hairstyle as empty string in combinations)" = true) ∧
    (containsFrag (fullSystemInstruction .COMPLETE)
        "Recommend 3-4 specific hairstyles" = true ∧
      containsFrag (fullSystemInstruction .COMPLETE)
        "3-4 specific facial hair styles" = true ∧
      containsFrag (fullSystemInstruction .COMPLETE)
        "3 distinct \x27Look Combinations\x27 pairing them together" = true) :=
  ⟨⟨rfl, rfl, rfl⟩, ⟨rfl, rfl, rfl⟩, ⟨rfl, rfl, rfl⟩⟩

/-- C8: in every playground state with no hairstyle and no facial-hair
selection, the visualize action is a no-op — the state is returned unchanged,
no preview request is issued, and the visualize button is disabled. -/
theorem visualize_noop_without_selection (st : PlaygroundState)
    (hh : st.selectedHair = none) (hb : st.selectedBeard = none) :
    handleVisualizeStart st = (st, none) ∧ visualizeDisabled st = true := by
  have h1 : hairPart st = "" := by simp [hairPart, jsTruthyStr, hh]
  have h2 : beardPart st = "" := by simp [beardPart, jsTruthyStr, hb]
  constructor
  · unfold handleVisualizeStart
    rw [if_pos ⟨h1, h2⟩]
  · simp [visualizeDisabled, jsTruthyStr, hh, hb]

/-- Witness for C8 at a concrete idle state. -/
theorem visualize_noop_witness :
    handleVisualizeStart ⟨.recommended, none, none, false, none, none, 50, 0⟩ =
      (⟨.recommended, none, none, false, none, none, 50, 0⟩, none) ∧
    visualizeDisabled ⟨.recommended, none, none, false, none, none, 50, 0⟩ = true :=
  visualize_noop_without_selection _ rfl rfl

/-- C6: `analyzeFace` fails with the "no response" error exactly when the
provider call succeeds but yields no text (absent or empty, both falsy in
JavaScript); when non-empty text is present and parses, it returns the
JSON-parse of that text; and a thrown transport/provider error propagates
unchanged — the rethrown error is the very value that was caught. -/
theorem analyzeFace_error_semantics
    (parse : String → Except String AnalysisResult)
    (resp : AnalyzeResponse) (e : JsError) (t : String) (r : AnalysisResult) :
    (analyzeFaceRun parse (.success resp) =
        .error (.message "No response text received from Gemini.") ↔
      resp.text = none ∨ resp.text = some "") ∧
    (resp.text = some t → t ≠ "" → parse t = .ok r →
      analyzeFaceRun parse (.success resp) = .ok r) ∧
    analyzeFaceRun parse (.failure e) = .error e := by
  refine ⟨⟨?_, ?_⟩, ?_, rfl⟩
  · intro h
    cases ht : resp.text with
    | none => exact Or.inl rfl
    | some u =>
      by_cases hu : u = ""
      · exact Or.inr (by rw [hu])
      · exfalso
        simp only [analyzeFaceRun, ht, hu, if_neg hu] at h
        cases hp : parse u with
        | ok r' => rw [hp] at h; exact Except.noConfusion h
        | error m =>
          rw [hp] at h
          have := Except.error.inj h
          exact JsError.noConfusion this
  · rintro (h | h) <;> simp [analyzeFaceRun, h]
  · intro h1 h2 h3
    simp [analyzeFaceRun, h1, h2, h3]

/-- Witness for C6: a successful outcome with non-empty parsable text returns
the parsed value. -/
theorem analyzeFace_error_semantics_witness :
    analyzeFaceRun (fun _ => .ok (⟨"Oval", "a", [], [], [], []⟩ : AnalysisResult))
        (.success ⟨some "x"⟩) = .ok ⟨"Oval", "a", [], [], [], []⟩ :=
  (analyzeFace_error_semantics (fun _ => .ok ⟨"Oval", "a", [], [], [], []⟩)
    ⟨some "x"⟩ (.message "e") "x" ⟨"Oval", "a", [], [], [], []⟩).2.1
    rfl (by decide) rfl

/-- The per-mode invariant stated by the specification: `hairstyles` empty for
FACIAL_HAIR_ONLY, `facialHair` empty for HAIRSTYLE_ONLY, both of size 3-4 and
exactly 3 combinations for COMPLETE.  This is the specification's predicate;
the source computes no such check. -/
def specModeInvariant (mode : AnalysisMode) (r : AnalysisResult) : Bool :=
  match mode with
  | .FACIAL_HAIR_ONLY => r.hairstyles.isEmpty
  | .HAIRSTYLE_ONLY => r.facialHair.isEmpty
  | .COMPLETE =>
    decide (3 ≤ r.hairstyles.length) && decide (r.hairstyles.length ≤ 4) &&
    decide (3 ≤ r.facialHair.length) && decide (r.facialHair.length ≤ 4) &&
    decide (r.combinations.length = 3)

/-- A concrete `AnalysisResult` with a non-empty `hairstyles` list. -/
def badAnalysis : AnalysisResult :=
  ⟨"Oval", "Strong jawline",
    [⟨"Buzz Cut", "Very short all over", "Keeps proportions tight"⟩],
    [], [], []⟩

/-- The JSON serialisation of `badAnalysis`. -/
def badAnalysisJson : String :=
  "\x7b\"faceShape\":\"Oval\",\"faceAnalysis\":\"Strong jawline\",\"hairstyles\":[\x7b\"name\":\"Buzz Cut\",\"description\":\"Very short all over\",\"reasoning\":\"Keeps proportions tight\"\x7d],\"facialHair\":[],\"combinations\":[],\"groomingTips\":[]\x7d"

/-- Stands for the platform `JSON.parse` restricted to the single text
`badAnalysisJson`: on that text JavaScript's `JSON.parse` yields exactly the
object embedded as `badAnalysis`; on any other text this stand-in throws a
`SyntaxError`. -/
def parseBadAnalysis : String → Except String AnalysisResult :=
  fun s => if s = badAnalysisJson then .ok badAnalysis else .error "SyntaxError"

set_option maxRecDepth 8000 in
/-- C1, counterexample: in FACIAL_HAIR_ONLY mode, a provider response whose
text parses as JSON to an object with a non-empty `hairstyles` list is
returned verbatim by `analyzeFace`, violating the per-mode invariant — the
mode affects only the instruction sent, never the response handling. -/
theorem analyzeFace_mode_invariant_cex :
    analyzeFaceRun parseBadAnalysis (.success ⟨some badAnalysisJson⟩) =
      .ok badAnalysis ∧
    specModeInvariant .FACIAL_HAIR_ONLY badAnalysis = false ∧
    badAnalysis.hairstyles ≠ [] := by
  refine ⟨rfl, rfl, by decide⟩

/-- C1 (amended): for every provider response whose text parses as JSON,
`analyzeFace` returns the parsed value verbatim, performing no validation;
consequently the per-mode invariant holds of the returned `AnalysisResult`
exactly when the provider's parsed response already satisfies it. -/
theorem analyzeFace_returns_parse_verbatim
    (parse : String → Except String AnalysisResult) (resp : AnalyzeResponse)
    (mode : AnalysisMode) (t : String) (r : AnalysisResult)
    (h1 : resp.text = some t) (h2 : t ≠ "") (h3 : parse t = .ok r) :
    analyzeFaceRun parse (.success resp) = .ok r ∧
    (specModeInvariant mode r = true →
      ∃ ret, analyzeFaceRun parse (.success resp) = .ok ret ∧
        specModeInvariant mode ret = true) := by
  have hrun : analyzeFaceRun parse (.success resp) = .ok r := by
    simp [analyzeFaceRun, h1, h2, h3]
  exact ⟨hrun, fun hinv => ⟨r, hrun, hinv⟩⟩

/-- Witness for the amended C1: a FACIAL_HAIR_ONLY-compliant parsed response
is returned verbatim and satisfies the invariant. -/
theorem analyzeFace_returns_parse_verbatim_witness :
    analyzeFaceRun
        (fun _ => .ok (⟨"Oval", "jaw", [], [⟨"Goatee", "g", "r"⟩], [], []⟩ : AnalysisResult))
        (.success ⟨some "t"⟩) =
      .ok ⟨"Oval", "jaw", [], [⟨"Goatee", "g", "r"⟩], [], []⟩ ∧
    specModeInvariant .FACIAL_HAIR_ONLY
      ⟨"Oval", "jaw", [], [⟨"Goatee", "g", "r"⟩], [], []⟩ = true := by
  refine ⟨?_, rfl⟩
  exact (analyzeFace_returns_parse_verbatim
    (fun _ => .ok ⟨"Oval", "jaw", [], [⟨"Goatee", "g", "r"⟩], [], []⟩)
    ⟨some "t"⟩ .FACIAL_HAIR_ONLY "t" ⟨"Oval", "jaw", [], [⟨"Goatee", "g", "r"⟩], [], []⟩
    rfl (by decide) rfl).1

/-- If no part of a list carries inline image bytes, the extraction loop
finds nothing. -/
theorem findInlinePart_eq_none (ps : List ResPart)
    (h : ps.any partHasImage = false) : findInlinePart ps = none := by
  induction ps with
  | nil => rfl
  | cons p rest ih =>
    rw [List.any_cons, Bool.or_eq_false_iff] at h
    obtain ⟨hp, hrest⟩ := h
    cases hd : p.inlineData with
    | some d =>
      have hde : d.data.isEmpty = true := by
        rw [partHasImage, hd, Bool.not_eq_false'] at hp
        exact hp
      simp [findInlinePart, hd, hde, ih hrest]
    | none => simp [findInlinePart, hd, ih hrest]

/-- C3, counterexample: the response with an empty `candidates` array contains
no content part carrying inline image bytes, yet `generateLookPreview` does
not fail with the "No image generated." error — the empty array is truthy in
JavaScript, so `candidates[0].content` throws a `TypeError`, which the catch
block rethrows. -/
theorem generatePreview_empty_candidates_cex :
    hasImagePart ⟨some []⟩ = false ∧
    generateLookPreviewRun (.success ⟨some []⟩) =
      .error (.typeError "Cannot read properties of undefined (reading \x27content\x27)") ∧
    generateLookPreviewRun (.success ⟨some []⟩) ≠
      .error (.message "No image generated.") := by
  refine ⟨rfl, rfl, ?_⟩
  intro h
  exact JsError.noConfusion (Except.error.inj h)

/-- C3 (amended): for every provider response with no content part carrying
inline image bytes, `generateLookPreview` fails — no (possibly malformed)
data URI is ever returned — and the failure is the "No image generated."
error whenever the guard's property accesses stay on defined values
(`candidates` absent, or a first candidate with a `content` object); with an
empty `candidates` array or a first candidate lacking `content`, the failure
is a rethrown `TypeError` instead. -/
theorem generatePreview_no_image_error_amended (r : GenResponse)
    (h : hasImagePart r = false) :
    (∃ e, generateLookPreviewRun (.success r) = .error e) ∧
    (contentAccessOk r = true →
      generateLookPreviewRun (.success r) = .error (.message "No image generated.")) := by
  cases hc : r.candidates with
  | none =>
    refine ⟨⟨.message "No image generated.", ?_⟩, fun _ => ?_⟩ <;>
      simp [generateLookPreviewRun, extractPreview, hc]
  | some cs =>
    cases cs with
    | nil =>
      refine ⟨⟨.typeError "Cannot read properties of undefined (reading \x27content\x27)", ?_⟩, fun hok => ?_⟩
      · simp [generateLookPreviewRun, extractPreview, hc]
      · rw [contentAccessOk, hc] at hok
        exact Bool.noConfusion hok
    | cons c cs' =>
      cases hct : c.content with
      | none =>
        refine ⟨⟨.typeError "Cannot read properties of undefined (reading \x27parts\x27)", ?_⟩, fun hok => ?_⟩
        · simp [generateLookPreviewRun, extractPreview, hc, hct]
        · simp [contentAccessOk, hc, hct] at hok
      | some ct =>
        cases hps : ct.parts with
        | none =>
          refine ⟨⟨.message "No image generated.", ?_⟩, fun _ => ?_⟩ <;>
            simp [generateLookPreviewRun, extractPreview, hc, hct, hps]
        | some ps =>
          simp only [hasImagePart, hc, List.any_cons, Bool.or_eq_false_iff,
            hct, hps] at h
          have hfind : findInlinePart ps = none := findInlinePart_eq_none ps h.1
          refine ⟨⟨.message "No image generated.", ?_⟩, fun _ => ?_⟩ <;>
            simp [generateLookPreviewRun, extractPreview, hc, hct, hps, hfind]

/-- Witness for the amended C3: a response without a `candidates` field fails
with the "No image generated." error. -/
theorem generatePreview_no_image_error_witness :
    generateLookPreviewRun (.success ⟨none⟩) =
      .error (.message "No image generated.") :=
  (generatePreview_no_image_error_amended ⟨none⟩ rfl).2 rfl

/-- The extraction loop agrees with the specification-side description of
"the data of the first part carrying inline image bytes". -/
theorem findInlinePart_eq_spec (ps : List ResPart) :
    findInlinePart ps = specFirstImageData ps := by
  induction ps with
  | nil => rfl
  | cons p rest ih =>
    cases hd : p.inlineData with
    | none =>
      have hp : partHasImage p = false := by simp [partHasImage, hd]
      simp [findInlinePart, specFirstImageData, List.filter_cons, hd, hp, ih]
    | some d =>
      by_cases hde : d.data.isEmpty = true
      · have hp : partHasImage p = false := by simp [partHasImage, hd, hde]
        simp [findInlinePart, specFirstImageData, List.filter_cons, hd, hde, hp, ih]
      · have hp : partHasImage p = true := by simp [partHasImage, hd, hde]
        simp [findInlinePart, specFirstImageData, List.filter_cons, hd, hde, hp]

/-- C4: for every provider response whose first candidate's content parts
include at least one part carrying inline image bytes — witnessed by the
specification-side first-image data — `generateLookPreview` returns the
string `"data:image/png;base64,"` concatenated with the base64 data of the
first such part in part order, and (the data being base64) the result is a
syntactically valid PNG data URI. -/
theorem generatePreview_first_image_data_uri (r : GenResponse) (c : Candidate)
    (cs : List Candidate) (ct : Content) (ps : List ResPart) (dta : String)
    (hc : r.candidates = some (c :: cs)) (hct : c.content = some ct)
    (hps : ct.parts = some ps)
    (hfirst : specFirstImageData ps = some dta)
    (hb64 : dta.data.all isBase64Char = true) :
    generateLookPreviewRun (.success r) = .ok ("data:image/png;base64," ++ dta) ∧
    isValidPngDataUri ("data:image/png;base64," ++ dta) = true := by
  constructor
  · have hfind : findInlinePart ps = some dta := by
      rw [findInlinePart_eq_spec, hfirst]
    simp [generateLookPreviewRun, extractPreview, hc, hct, hps, hfind]
  · rw [isValidPngDataUri, Bool.and_eq_true]
    constructor
    · exact (hasPrefixL_iff _ _).mpr ⟨dta.data, by rw [String.data_append]⟩
    · rw [String.data_append]
      have h22 : ("data:image/png;base64,".data).length = 22 := rfl
      rw [← h22, List.drop_left]
      exact hb64

/-- Witness for C4 at a concrete single-candidate, single-part response. -/
theorem generatePreview_first_image_witness :
    generateLookPreviewRun
        (.success ⟨some [⟨some ⟨some [⟨some ⟨"image/png", "QUJD"⟩, none⟩]⟩⟩]⟩) =
      .ok ("data:image/png;base64," ++ "QUJD") ∧
    isValidPngDataUri ("data:image/png;base64," ++ "QUJD") = true :=
  generatePreview_first_image_data_uri _ _ _ _ _ "QUJD" rfl rfl rfl rfl (by decide)

/-- The fragment `"Facial Hair:"` cannot occur in `Hl ++ ". . Create a
cohesive look."` when it does not occur in `Hl`: an occurrence would have to
lie in the tail — which contains no `'F'` — straddle the boundary — which
would put a `'.'` inside the fragment — or lie in `Hl`. -/
theorem facialHair_not_in_tail (Hl : List Char)
    (hH : containsL "Facial Hair:".data Hl = false)
    (w b : List Char)
    (h : Hl ++ ". . Create a cohesive look.".data =
      w ++ "Facial Hair:".data ++ b) :
    False := by
  rw [List.append_assoc] at h
  rcases List.append_eq_append_iff.mp h with ⟨u, hu1, hu2⟩ | ⟨u, hu1, hu2⟩
  · have hF : 'F' ∈ ". . Create a cohesive look.".data := by
      rw [hu2]
      exact List.mem_append.mpr (Or.inr (List.mem_append.mpr (Or.inl (by decide))))
    exact absurd hF (by decide)
  · rcases List.append_eq_append_iff.mp hu2 with ⟨v, hv1, hv2⟩ | ⟨v, hv1, hv2⟩
    · rw [hv1] at hu1
      have hocc : containsL "Facial Hair:".data Hl = true :=
        (containsL_iff _ _).mpr ⟨w, v, by rw [hu1, List.append_assoc]⟩
      rw [hH] at hocc
      exact Bool.noConfusion hocc
    · cases v with
      | nil =>
        rw [List.append_nil] at hv1
        have hocc : containsL "Facial Hair:".data Hl = true :=
          (containsL_iff _ _).mpr ⟨w, [], by rw [hu1, ← hv1, List.append_nil]⟩
        rw [hH] at hocc
        exact Bool.noConfusion hocc
      | cons vc vt =>
        have h2 : ('.' : Char) :: " . Create a cohesive look.".data =
            vc :: (vt ++ b) := by
          rw [← List.cons_append]
          exact hv2
        obtain ⟨hvc, -⟩ := List.cons.inj h2
        have hdot : '.' ∈ "Facial Hair:".data := by
          rw [hv1]
          refine List.mem_append.mpr (Or.inr ?_)
          rw [← hvc]
          exact List.mem_cons_self _ _
        exact absurd hdot (by decide)

/-- The fragment `"Facial Hair:"` does not occur in a description of the form
`"Hairstyle: " ++ Hl ++ ". . Create a cohesive look."` when it does not occur
in the selected name `Hl`. -/
theorem facialHair_frag_not_in_description (Hl : List Char)
    (hH : containsL "Facial Hair:".data Hl = false) :
    containsL "Facial Hair:".data
      ("Hairstyle: ".data ++ (Hl ++ ". . Create a cohesive look.".data)) = false := by
  by_contra hcon
  obtain ⟨a, b, hab⟩ := (containsL_iff _ _).mp (Bool.ne_false_iff.mp hcon)
  rw [List.append_assoc] at hab
  rcases List.append_eq_append_iff.mp hab with ⟨w, hw1, hw2⟩ | ⟨w, hw1, hw2⟩
  · exact facialHair_not_in_tail Hl hH w b (by rw [hw2, List.append_assoc])
  · rcases List.append_eq_append_iff.mp hw2 with ⟨v, hv1, hv2⟩ | ⟨v, hv1, hv2⟩
    · rw [hv1] at hw1
      have hlen := congrArg List.length hw1
      rw [List.length_append, List.length_append] at hlen
      have hP : ("Hairstyle: ".data).length = 11 := rfl
      have hq : ("Facial Hair:".data).length = 12 := rfl
      rw [hP, hq] at hlen
      omega
    · cases w with
      | nil =>
        rw [List.nil_append] at hv1
        exact facialHair_not_in_tail Hl hH [] b
          (by rw [hv2, ← hv1, List.nil_append])
      | cons wc wt =>
        have h2 : ('F' : Char) :: "acial Hair:".data = wc :: (wt ++ v) := by
          rw [← List.cons_append]
          exact hv1
        obtain ⟨hwc, -⟩ := List.cons.inj h2
        have hF : 'F' ∈ "Hairstyle: ".data := by
          rw [hw1]
          refine List.mem_append.mpr (Or.inr ?_)
          rw [← hwc]
          exact List.mem_cons_self _ _
        exact absurd hF (by decide)

set_option maxRecDepth 8000 in
/-- C7, counterexample: with the hairstyle name `"Facial Hair: Goatee"`
selected and no facial-hair selection, the description sent to the preview
generator does contain a `"Facial Hair:"` fragment, because the selected name
itself carries it. -/
theorem visualize_description_cex :
    (handleVisualizeStart
        ⟨.recommended, some "Facial Hair: Goatee", none, false, none, none, 50, 0⟩).2 =
      some "Hairstyle: Facial Hair: Goatee. . Create a cohesive look." ∧
    containsFrag "Hairstyle: Facial Hair: Goatee. . Create a cohesive look."
      "Facial Hair:" = true ∧
    containsFrag "Hairstyle: Facial Hair: Goatee. . Create a cohesive look."
      ("Hairstyle: " ++ "Facial Hair: Goatee") = true :=
  ⟨rfl, rfl, rfl⟩

/-- C7 (amended): in every playground state where a NON-EMPTY hairstyle name
`H` that does not itself contain the fragment `"Facial Hair:"` is selected
and no facial-hair style is selected, invoking visualize sends the preview
generator a description containing the fragment `"Hairstyle: " ++ H` and no
`"Facial Hair:"` fragment. -/
theorem visualize_description_hair_only_amended (st : PlaygroundState)
    (H : String) (hh : st.selectedHair = some H) (hb : st.selectedBeard = none)
    (hne : H ≠ "") (hfrag : containsFrag H "Facial Hair:" = false) :
    ∃ d, (handleVisualizeStart st).2 = some d ∧
      containsFrag d ("Hairstyle: " ++ H) = true ∧
      containsFrag d "Facial Hair:" = false := by
  have hie : H.isEmpty = false := by
    cases he : H.isEmpty with
    | true => exact absurd ((String.isEmpty_iff H).mp he) hne
    | false => rfl
  have h1 : hairPart st = "Hairstyle: " ++ H := by
    rw [hairPart, hh]
    simp [jsTruthyStr, hie]
  have h2 : beardPart st = "" := by simp [beardPart, jsTruthyStr, hb]
  have hne1 : ¬(hairPart st = "" ∧ beardPart st = "") := by
    rintro ⟨ha, -⟩
    rw [h1] at ha
    have hdd := congrArg String.data ha
    rw [String.data_append] at hdd
    exact absurd (List.append_eq_nil.mp hdd).1 (by decide)
  refine ⟨("Hairstyle: " ++ H) ++ ". " ++ "" ++ ". Create a cohesive look.",
    ?_, ?_, ?_⟩
  · rw [handleVisualizeStart, if_neg hne1, h1, h2]
  · have hd : ((("Hairstyle: " ++ H) ++ ". " ++ "" ++ ". Create a cohesive look.")).data
        = "Hairstyle: ".data ++ (H.data ++ ". . Create a cohesive look.".data) := by
      simp only [String.data_append, List.append_assoc, List.nil_append]
      rfl
    rw [containsFrag]
    apply (containsL_iff _ _).mpr
    refine ⟨[], ". . Create a cohesive look.".data, ?_⟩
    rw [hd, String.data_append, List.nil_append, List.append_assoc]
  · have hd : ((("Hairstyle: " ++ H) ++ ". " ++ "" ++ ". Create a cohesive look.")).data
        = "Hairstyle: ".data ++ (H.data ++ ". . Create a cohesive look.".data) := by
      simp only [String.data_append, List.append_assoc, List.nil_append]
      rfl
    rw [containsFrag, hd]
    exact facialHair_frag_not_in_description H.data hfrag

/-- Witness for the amended C7: selecting only "Pompadour". -/
theorem visualize_description_witness :
    ∃ d, (handleVisualizeStart
        ⟨.recommended, some "Pompadour", none, false, none, none, 50, 0⟩).2 = some d ∧
      containsFrag d ("Hairstyle: " ++ "Pompadour") = true ∧
      containsFrag d "Facial Hair:" = false :=
  visualize_description_hair_only_amended _ "Pompadour" rfl rfl
    (by decide) (by decide)
